import Mathlib

/-!
Shallow embedding of the DMS component of the geomorph library
(`src/dms.rs`), together with proofs about its normalization,
range-reduction, rendering and conversion behaviour.

Modelling conventions:
* Rust `i32` degrees are modelled as `ℤ` and `u32` minutes as `ℕ`
  (the idealized, width-unbounded reading); a second, width-faithful
  model (`DMSBasic.new32`) keeps the `u32`/`i32` wrap-around of the
  carry arithmetic where that is what a claim is about.
* Rust `f64` seconds are modelled as `ℚ`; `ss % 60.0` is the exact
  `fmod` (remainder with the sign of the dividend) and `.trunc()` is
  truncation toward zero, both of which `fmod`/`trunc` compute exactly
  on floats.
* `Coord`, `Utm` and `Mgrs` live in source files that are not part of
  the supplied material; they are modelled from the spec where needed.
-/

/-- Truncation toward zero of a rational, the semantics of the Rust method trunc on f64. -/
def qtrunc (q : ℚ) : ℤ := if 0 ≤ q then ⌊q⌋ else -⌊-q⌋

/-- The Rust operator `%` on `f64` (fmod): `a - b * trunc (a / b)`, the remainder
with the sign of the dividend. -/
def fRem (a b : ℚ) : ℚ := a - b * (qtrunc (a / b) : ℚ)

/-- Struct `DMSBasic` from `src/dms.rs`: degrees (`i32`), minutes
(`u32`), seconds (`f64`). -/
structure DMSBasic where
  dd : ℤ
  mm : ℕ
  ss : ℚ

/-- The first `if` of `DMSBasic::new`: when `ss > 60.0`, the code runs
`mm += (ss / 60.0).trunc() as u32; ss %= 60.0`.  With `ss > 60` the
truncation is at least `1`, so the `as u32` cast is `Int.toNat` here;
its upper saturation is modelled separately in `carrySec32`. -/
def carrySec (mm : ℕ) (ss : ℚ) : ℕ × ℚ :=
  if ss > 60 then (mm + (qtrunc (ss / 60)).toNat, fRem ss 60) else (mm, ss)

/-- The second `if` of `DMSBasic::new`: when `mm > 60`, the code runs
`dd += (mm / 60) as i32; mm %= 60` (integer division and remainder). -/
def carryMin (dd : ℤ) (mm : ℕ) : ℤ × ℕ :=
  if mm > 60 then (dd + ((mm / 60 : ℕ) : ℤ), mm % 60) else (dd, mm)

/-- Constructor `DMSBasic::new` from `src/dms.rs`: the seconds carry
followed by the minutes carry. -/
def DMSBasic.new (dd : ℤ) (mm : ℕ) (ss : ℚ) : DMSBasic :=
  let s := carrySec mm ss
  let m := carryMin dd s.1
  ⟨m.1, m.2, s.2⟩

/-- Wrap an unbounded integer into the value range of `i32` by the
two-complement wrap. -/
def wrapI32 (z : ℤ) : ℤ := (z + 2147483648) % 4294967296 - 2147483648

/-- The Rust method `i32::abs`: the mathematical absolute value wrapped
back into `i32`, so it is the identity on `i32::MIN` in a release build
(a debug build panics there) and the true absolute value everywhere
else. -/
def i32abs (z : ℤ) : ℤ := wrapI32 (if z < 0 then -z else z)

/-- Display of `DMSBasic`: the format template degree-sign, minute mark
and second mark applied to `dd.abs()` (the wrapping `i32` absolute
value), `mm`, `ss`.  The numeral rendering of the `f64` seconds is
inherited from the `ℚ` embedding via `toString`. -/
def DMSBasic.render (t : DMSBasic) : String :=
  toString (i32abs t.dd) ++ "°" ++ toString t.mm ++ "\x27" ++ toString t.ss ++ "\x22"

/-- Struct `DMS` from `src/dms.rs`: a latitude/longitude pair of
triples. -/
structure DMS where
  lat : DMSBasic
  lon : DMSBasic

/-- The latitude branch of `DMS::new`: `if lat.dd < -90 || lat.dd > 90
{ lat.dd %= 90; }`; Rust `%` on `i32` is `Int.tmod` (remainder with the
sign of the dividend). -/
def latReduce (t : DMSBasic) : DMSBasic :=
  if t.dd < -90 ∨ t.dd > 90 then ⟨Int.tmod t.dd 90, t.mm, t.ss⟩ else t

/-- The longitude branch of `DMS::new`: `if lon.dd < -180 || lon.dd >
180 { lon.dd %= 180; }`. -/
def lonReduce (t : DMSBasic) : DMSBasic :=
  if t.dd < -180 ∨ t.dd > 180 then ⟨Int.tmod t.dd 180, t.mm, t.ss⟩ else t

/-- Constructor `DMS::new` from `src/dms.rs`. -/
def DMS.new (lat lon : DMSBasic) : DMS := ⟨latReduce lat, lonReduce lon⟩

/-- Display of `DMS`: each triple followed by its hemisphere
letter, chosen by `dd >= 0`, the halves joined by `", "`. -/
def DMS.render (d : DMS) : String :=
  (if d.lat.dd ≥ 0 then d.lat.render ++ "N, " else d.lat.render ++ "S, ") ++
  (if d.lon.dd ≥ 0 then d.lon.render ++ "E" else d.lon.render ++ "W")

/-- Modelled from the spec: `Coord` lives in `coord.rs`, which is not
among the supplied sources.  Per §3 of the spec it is a pair of signed
decimal-degree reals. -/
structure Coord where
  lat : ℚ
  lon : ℚ

/-- Conversion `impl From<Coord> for DMS` from `src/dms.rs`: feed `coord.lat *
3600.0` (resp. longitude) as seconds into `DMSBasic::new(0, 0, ·)` and
pass both triples through `DMS::new`. -/
def DMS.ofCoord (c : Coord) : DMS :=
  DMS.new (DMSBasic.new 0 0 (c.lat * 3600)) (DMSBasic.new 0 0 (c.lon * 3600))

/-- Modelled from the spec: `Utm` lives in `utm.rs`, absent from the
supplied sources; per §3/§6 it is opaque here and its only contract is
convertibility to a `Coord`, modelled as that `Coord`. -/
structure Utm where
  toCoord : Coord

/-- Modelled from the spec: `Mgrs` lives in `mgrs.rs`, absent from the
supplied sources; as for `Utm`, its only contract is convertibility to
a `Coord`. -/
structure Mgrs where
  toCoord : Coord

/-- Modelled from the spec: the `Utm → Coord` conversion provided by
the absent `coord.rs`/`utm.rs`. -/
def Coord.ofUtm (u : Utm) : Coord := u.toCoord

/-- Modelled from the spec: the `Mgrs → Coord` conversion provided by
the absent sources. -/
def Coord.ofMgrs (m : Mgrs) : Coord := m.toCoord

/-- Conversion `impl From<Utm> for DMS` from `src/dms.rs`: `let coord:
Coord = utm.into(); coord.into()`. -/
def DMS.ofUtm (u : Utm) : DMS := DMS.ofCoord (Coord.ofUtm u)

/-- Conversion `impl From<Mgrs> for DMS` from `src/dms.rs`: `let coord:
Coord = mgrs.into(); coord.into()`. -/
def DMS.ofMgrs (m : Mgrs) : DMS := DMS.ofCoord (Coord.ofMgrs m)

/-- Modelled from the spec: the decimal value of a triple, used by the
`DMS → Coord` conversion that lives in the absent `coord.rs`.  Per
§4.1/§4.3 the `dd` field carries the overall sign and `mm`/`ss` are
magnitudes within the degree, and scenario S5 requires
`(-2, 23, 24.46) ↦ ≈ -2.3901266`, i.e. the value is
`±(|dd| + mm/60 + ss/3600)` with the sign of `dd`. -/
def DMSBasic.toDegrees (t : DMSBasic) : ℚ :=
  if t.dd < 0 then (t.dd : ℚ) - (t.mm : ℚ) / 60 - t.ss / 3600
  else (t.dd : ℚ) + (t.mm : ℚ) / 60 + t.ss / 3600

/-- Modelled from the spec: the `DMS → Coord` conversion of the absent
`coord.rs`, evaluating each triple to decimal degrees. -/
def Coord.ofDMS (d : DMS) : Coord := ⟨d.lat.toDegrees, d.lon.toDegrees⟩

/-- The Rust cast `as u32` on an `f64`: truncate toward zero, saturating
at `0` and `u32::MAX`. -/
def castU32 (q : ℚ) : ℕ := if q < 0 then 0 else min (qtrunc q).toNat 4294967295

/-- Width-faithful seconds carry: the Rust statement `mm += (ss /
60.0).trunc() as u32` saturates the cast and wraps the `u32` addition (release-mode
semantics; under debug assertions the wrapping addition panics
instead). -/
def carrySec32 (mm : ℕ) (ss : ℚ) : ℕ × ℚ :=
  if ss > 60 then ((mm + castU32 (ss / 60)) % 4294967296, fRem ss 60) else (mm, ss)

/-- Width-faithful minutes carry: the Rust statement `dd += (mm / 60) as
i32` wraps
the `i32` addition (release-mode semantics; a debug build panics
instead). -/
def carryMin32 (dd : ℤ) (mm : ℕ) : ℤ × ℕ :=
  if mm > 60 then (wrapI32 (dd + ((mm / 60 : ℕ) : ℤ)), mm % 60) else (dd, mm)

/-- Constructor `DMSBasic::new` with the `u32`/`i32` widths of the
source kept explicit. -/
def DMSBasic.new32 (dd : ℤ) (mm : ℕ) (ss : ℚ) : DMSBasic :=
  let s := carrySec32 mm ss
  let m := carryMin32 dd s.1
  ⟨m.1, m.2, s.2⟩
theorem qtrunc_eq_floor (q : ℚ) (h : 0 ≤ q) : qtrunc q = ⌊q⌋ := by
  simp [qtrunc, h]

theorem fRem_bounds (ss : ℚ) (h : 0 ≤ ss) : 0 ≤ fRem ss 60 ∧ fRem ss 60 < 60 := by
  have h60 : (0 : ℚ) ≤ ss / 60 := div_nonneg h (by norm_num)
  have hq : fRem ss 60 = 60 * Int.fract (ss / 60) := by
    rw [fRem, qtrunc_eq_floor _ h60, Int.fract]
    field_simp
  constructor
  · rw [hq]
    have := Int.fract_nonneg (ss / 60)
    linarith
  · rw [hq]
    have := Int.fract_lt_one (ss / 60)
    linarith

theorem carrySec_value (mm : ℕ) (ss : ℚ) :
    (((carrySec mm ss).1 : ℚ)) * 60 + (carrySec mm ss).2 = (mm : ℚ) * 60 + ss := by
  by_cases h : ss > 60
  · have h0 : (0 : ℚ) ≤ ss / 60 := div_nonneg (by linarith) (by norm_num)
    have hf : (0 : ℤ) ≤ ⌊ss / 60⌋ := Int.floor_nonneg.mpr h0
    have hcast : ((⌊ss / 60⌋.toNat : ℕ) : ℚ) = ((⌊ss / 60⌋ : ℤ) : ℚ) := by
      exact_mod_cast congrArg (fun z : ℤ => (z : ℚ)) (Int.toNat_of_nonneg hf)
    simp only [carrySec, if_pos h, fRem, qtrunc_eq_floor _ h0]
    push_cast [hcast]
    ring
  · simp [carrySec, h]

theorem carryMin_value (dd : ℤ) (mm : ℕ) :
    (((carryMin dd mm).1 : ℚ)) * 60 + (carryMin dd mm).2 = (dd : ℚ) * 60 + mm := by
  by_cases h : mm > 60
  · have hdm : mm / 60 * 60 + mm % 60 = mm := by omega
    have hq : ((mm / 60 : ℕ) : ℚ) * 60 + ((mm % 60 : ℕ) : ℚ) = (mm : ℚ) := by
      exact_mod_cast congrArg (fun n : ℕ => (n : ℚ)) hdm
    simp only [carryMin, if_pos h]
    rw [Int.cast_add, Int.cast_natCast]
    linear_combination hq
  · simp [carryMin, h]

theorem new_value (dd : ℤ) (mm : ℕ) (ss : ℚ) :
    ((DMSBasic.new dd mm ss).dd : ℚ) * 3600 + ((DMSBasic.new dd mm ss).mm : ℚ) * 60
        + (DMSBasic.new dd mm ss).ss
      = (dd : ℚ) * 3600 + (mm : ℚ) * 60 + ss := by
  have h1 := carrySec_value mm ss
  have h2 := carryMin_value dd (carrySec mm ss).1
  simp only [DMSBasic.new]
  nlinarith [h1, h2]

theorem new_ss_le (dd : ℤ) (mm : ℕ) (ss : ℚ) : (DMSBasic.new dd mm ss).ss ≤ 60 := by
  by_cases h : ss > 60
  · have := (fRem_bounds ss (by linarith)).2
    simp only [DMSBasic.new, carrySec, if_pos h]
    exact le_of_lt this
  · simp only [DMSBasic.new, carrySec, if_neg h]
    exact le_of_not_lt h

theorem new_mm_le (dd : ℤ) (mm : ℕ) (ss : ℚ) : (DMSBasic.new dd mm ss).mm ≤ 60 := by
  simp only [DMSBasic.new, carryMin]
  by_cases h : (carrySec mm ss).1 > 60
  · simp only [if_pos h]
    exact le_of_lt (Nat.mod_lt _ (by norm_num))
  · simp only [if_neg h]
    exact le_of_not_lt h

theorem neg_tmod_dividend (a b : ℤ) : Int.tmod (-a) b = -(Int.tmod a b) := by
  rw [Int.tmod_def, Int.tmod_def, Int.neg_tdiv]
  ring

theorem wrapI32_eq_self (z : ℤ) (h1 : -2147483648 ≤ z) (h2 : z < 2147483648) :
    wrapI32 z = z := by
  rw [wrapI32, Int.emod_eq_of_lt (by linarith) (by linarith)]
  ring

theorem new_dd_eq (dd : ℤ) (mm : ℕ) (ss : ℚ) :
    (DMSBasic.new dd mm ss).dd = (carryMin dd (carrySec mm ss).1).1 := rfl

theorem new_mm_eq (dd : ℤ) (mm : ℕ) (ss : ℚ) :
    (DMSBasic.new dd mm ss).mm = (carryMin dd (carrySec mm ss).1).2 := rfl

theorem new_ss_eq (dd : ℤ) (mm : ℕ) (ss : ℚ) :
    (DMSBasic.new dd mm ss).ss = (carrySec mm ss).2 := rfl

theorem carrySec_pos (mm : ℕ) (ss : ℚ) (h : ss > 60) :
    carrySec mm ss = (mm + (qtrunc (ss / 60)).toNat, fRem ss 60) := if_pos h

theorem carrySec_neg (mm : ℕ) (ss : ℚ) (h : ¬ ss > 60) :
    carrySec mm ss = (mm, ss) := if_neg h

theorem carryMin_pos (dd : ℤ) (mm : ℕ) (h : mm > 60) :
    carryMin dd mm = (dd + ((mm / 60 : ℕ) : ℤ), mm % 60) := if_pos h

theorem carryMin_neg (dd : ℤ) (mm : ℕ) (h : ¬ mm > 60) :
    carryMin dd mm = (dd, mm) := if_neg h

theorem new_fix (t : DMSBasic) (hs : t.ss ≤ 60) (hm : t.mm ≤ 60) :
    DMSBasic.new t.dd t.mm t.ss = t := by
  cases t with
  | mk a b c =>
    simp only [DMSBasic.new, carrySec_neg _ _ (not_lt.mpr hs), carryMin_neg _ _ (not_lt.mpr hm)]

/-- C10: `DMSBasic::new` is idempotent: re-running the constructor on
the fields of a constructed triple returns the same triple, because a
constructed triple always has `ss ≤ 60` and `mm ≤ 60` and the strict
carry guards never fire a second time. -/
theorem c10_idempotent (dd : ℤ) (mm : ℕ) (ss : ℚ) :
    DMSBasic.new (DMSBasic.new dd mm ss).dd (DMSBasic.new dd mm ss).mm
        (DMSBasic.new dd mm ss).ss
      = DMSBasic.new dd mm ss :=
  new_fix (DMSBasic.new dd mm ss) (new_ss_le dd mm ss) (new_mm_le dd mm ss)

theorem new32_dd_eq (dd : ℤ) (mm : ℕ) (ss : ℚ) :
    (DMSBasic.new32 dd mm ss).dd = (carryMin32 dd (carrySec32 mm ss).1).1 := rfl

theorem new32_mm_eq (dd : ℤ) (mm : ℕ) (ss : ℚ) :
    (DMSBasic.new32 dd mm ss).mm = (carryMin32 dd (carrySec32 mm ss).1).2 := rfl

theorem new32_ss_eq (dd : ℤ) (mm : ℕ) (ss : ℚ) :
    (DMSBasic.new32 dd mm ss).ss = (carrySec32 mm ss).2 := rfl

theorem carrySec32_pos (mm : ℕ) (ss : ℚ) (h : ss > 60) :
    carrySec32 mm ss = ((mm + castU32 (ss / 60)) % 4294967296, fRem ss 60) := if_pos h

theorem carrySec32_neg (mm : ℕ) (ss : ℚ) (h : ¬ ss > 60) :
    carrySec32 mm ss = (mm, ss) := if_neg h

theorem carryMin32_pos (dd : ℤ) (mm : ℕ) (h : mm > 60) :
    carryMin32 dd mm = (wrapI32 (dd + ((mm / 60 : ℕ) : ℤ)), mm % 60) := if_pos h

theorem carryMin32_neg (dd : ℤ) (mm : ℕ) (h : ¬ mm > 60) :
    carryMin32 dd mm = (dd, mm) := if_neg h

theorem carrySec32_fits (mm : ℕ) (ss : ℚ) (h : ss > 60)
    (hle : mm + (qtrunc (ss / 60)).toNat ≤ 4294967295) :
    (carrySec32 mm ss).1 = mm + (qtrunc (ss / 60)).toNat := by
  have h0 : (0 : ℚ) ≤ ss / 60 := div_nonneg (by linarith) (by norm_num)
  have hcast : castU32 (ss / 60) = (qtrunc (ss / 60)).toNat := by
    rw [castU32, if_neg (not_lt.mpr h0)]
    exact min_eq_left (by omega)
  rw [carrySec32_pos _ _ h, hcast]
  exact Nat.mod_eq_of_lt (by omega)

/-- C2 fails as stated: at `(2147483646, 121, 0.0)` the minutes value
121 exceeds 60 and the carry `dd += 121 / 60` overflows `i32`,
wrapping the degree field to `-2147483648` (a debug build panics), so
`dd` is not increased by the integer quotient. -/
theorem c2_counterexample :
    (DMSBasic.new32 2147483646 121 0).dd = -2147483648 ∧
    (DMSBasic.new32 2147483646 121 0).dd ≠ 2147483646 + ((121 / 60 : ℕ) : ℤ) := by
  have h1 : carrySec32 121 (0 : ℚ) = (121, 0) := carrySec32_neg _ _ (by norm_num)
  have h2 : (DMSBasic.new32 2147483646 121 0).dd
      = (carryMin32 2147483646 (carrySec32 121 0).1).1 := rfl
  have h3 : carryMin32 2147483646 121
      = (wrapI32 (2147483646 + ((121 / 60 : ℕ) : ℤ)), 121 % 60) :=
    carryMin32_pos _ _ (by omega)
  have h4 : wrapI32 (2147483646 + ((121 / 60 : ℕ) : ℤ)) = -2147483648 := by
    norm_num [wrapI32]
  have h5 : (DMSBasic.new32 2147483646 121 0).dd = -2147483648 := by
    rw [h2, h1, h3]
    exact h4
  refine ⟨h5, ?_⟩
  rw [h5]
  norm_num

/-- C2 (amended): over the machine widths of the source, when the
minutes value after the seconds carry exceeds 60 the constructed
triple has `mm` reduced modulo 60 (hence `< 60`) and `dd` set to the
`i32`-wrapped sum of `dd` and the integer quotient — equal to `dd`
increased by the quotient exactly when that sum fits in `i32`; minutes
of exactly 60 pass through with `dd` unchanged. -/
theorem c2_carry_minutes_amended (dd : ℤ) (mm : ℕ) (ss : ℚ) :
    ((carrySec32 mm ss).1 > 60 →
      (DMSBasic.new32 dd mm ss).mm = (carrySec32 mm ss).1 % 60 ∧
      (DMSBasic.new32 dd mm ss).mm < 60 ∧
      (DMSBasic.new32 dd mm ss).dd
        = wrapI32 (dd + (((carrySec32 mm ss).1 / 60 : ℕ) : ℤ)) ∧
      (-2147483648 ≤ dd + (((carrySec32 mm ss).1 / 60 : ℕ) : ℤ) →
        dd + (((carrySec32 mm ss).1 / 60 : ℕ) : ℤ) < 2147483648 →
        (DMSBasic.new32 dd mm ss).dd
          = dd + (((carrySec32 mm ss).1 / 60 : ℕ) : ℤ))) ∧
    ((carrySec32 mm ss).1 = 60 →
      (DMSBasic.new32 dd mm ss).mm = 60 ∧ (DMSBasic.new32 dd mm ss).dd = dd) := by
  constructor
  · intro h
    rw [new32_mm_eq, new32_dd_eq, carryMin32_pos _ _ h]
    refine ⟨rfl, Nat.mod_lt _ (by norm_num), rfl, ?_⟩
    intro hlo hhi
    exact wrapI32_eq_self _ hlo hhi
  · intro h
    rw [new32_mm_eq, new32_dd_eq, carryMin32_neg _ _ (by omega)]
    exact ⟨h, rfl⟩

theorem c2_carry_minutes_amended_witness :
    ((DMSBasic.new32 7 120 0).mm = (carrySec32 120 (0 : ℚ)).1 % 60 ∧
     (DMSBasic.new32 7 120 0).mm < 60 ∧
     (DMSBasic.new32 7 120 0).dd = 7 + (((carrySec32 120 (0 : ℚ)).1 / 60 : ℕ) : ℤ)) ∧
    ((DMSBasic.new32 9 60 0).mm = 60 ∧ (DMSBasic.new32 9 60 0).dd = 9) := by
  have e : carrySec32 120 (0 : ℚ) = (120, 0) := carrySec32_neg _ _ (by norm_num)
  have e2 : carrySec32 60 (0 : ℚ) = (60, 0) := carrySec32_neg _ _ (by norm_num)
  have hgt : (carrySec32 120 (0 : ℚ)).1 > 60 := by
    rw [e]
    norm_num
  have h1 := (c2_carry_minutes_amended 7 120 0).1 hgt
  refine ⟨⟨h1.1, h1.2.1, h1.2.2.2 ?_ ?_⟩, (c2_carry_minutes_amended 9 60 0).2 (by rw [e2])⟩
  · rw [e]
    decide
  · rw [e]
    decide

/-- C1 fails as stated: at input `(0, 0, 7200)` the carried minutes
`0 + 120` exceed 60, so the minutes carry reduces the final `mm` to 0,
which is not `mm` increased by `trunc(ss / 60) = 120`. -/
theorem c1_counterexample :
    (DMSBasic.new 0 0 7200).mm = 0 ∧
    (DMSBasic.new32 0 0 7200).mm = 0 ∧
    0 + (qtrunc ((7200 : ℚ) / 60)).toNat = 120 ∧
    (DMSBasic.new32 0 0 7200).mm ≠ 0 + (qtrunc ((7200 : ℚ) / 60)).toNat := by
  have hq0 : qtrunc ((7200 : ℚ) / 60) = 120 := by
    norm_num [qtrunc]
  have hq : (qtrunc ((7200 : ℚ) / 60)).toNat = 120 := by
    rw [hq0]
    rfl
  have hnew : (DMSBasic.new 0 0 7200).mm = 0 := by
    rw [new_mm_eq, carrySec_pos _ _ (by norm_num), carryMin_pos _ _ (by omega)]
    omega
  have hsec : (carrySec32 0 (7200 : ℚ)).1 = 120 := by
    rw [carrySec32_fits 0 7200 (by norm_num) (by rw [hq]; omega), hq]
  have hnew32 : (DMSBasic.new32 0 0 7200).mm = 0 := by
    rw [new32_mm_eq, hsec, carryMin32_pos _ _ (by omega)]
  exact ⟨hnew, hnew32, by omega, by omega⟩

/-- C1 (amended): with `ss > 60` the result has `ss ∈ [0, 60)`; the
seconds carry adds the `u32`-saturated truncation of `ss / 60` to `mm`
with `u32` wrap-around — equal to `mm` plus the exact truncation
whenever that sum fits in `u32` — and the carried minutes are the
final `mm` (with `dd` unchanged) exactly when they do not exceed 60;
otherwise the minutes carry reduces them modulo 60 and adds their
quotient to `dd` with `i32` wrap-around.  An input with `ss` exactly
60 keeps its seconds unchanged. -/
theorem c1_carry_seconds_amended (dd : ℤ) (mm : ℕ) (ss : ℚ) :
    (ss > 60 →
      0 ≤ (DMSBasic.new32 dd mm ss).ss ∧
      (DMSBasic.new32 dd mm ss).ss < 60 ∧
      (mm + (qtrunc (ss / 60)).toNat ≤ 4294967295 →
        (carrySec32 mm ss).1 = mm + (qtrunc (ss / 60)).toNat) ∧
      ((carrySec32 mm ss).1 ≤ 60 →
        (DMSBasic.new32 dd mm ss).mm = (carrySec32 mm ss).1 ∧
        (DMSBasic.new32 dd mm ss).dd = dd) ∧
      ((carrySec32 mm ss).1 > 60 →
        (DMSBasic.new32 dd mm ss).mm = (carrySec32 mm ss).1 % 60 ∧
        (DMSBasic.new32 dd mm ss).dd
          = wrapI32 (dd + (((carrySec32 mm ss).1 / 60 : ℕ) : ℤ)))) ∧
    (ss = 60 → (DMSBasic.new32 dd mm ss).ss = ss) := by
  constructor
  · intro h
    have hb := fRem_bounds ss (by linarith)
    have hss : (DMSBasic.new32 dd mm ss).ss = fRem ss 60 := by
      rw [new32_ss_eq, carrySec32_pos _ _ h]
    refine ⟨hss ▸ hb.1, hss ▸ hb.2, carrySec32_fits mm ss h, ?_, ?_⟩
    · intro hle
      rw [new32_mm_eq, new32_dd_eq, carryMin32_neg _ _ (by omega)]
      exact ⟨rfl, rfl⟩
    · intro hgt
      rw [new32_mm_eq, new32_dd_eq, carryMin32_pos _ _ hgt]
      exact ⟨rfl, rfl⟩
  · intro h
    rw [new32_ss_eq, carrySec32_neg _ _ (by rw [h]; exact lt_irrefl 60)]

theorem c1_carry_seconds_amended_witness :
    (0 ≤ (DMSBasic.new32 5 2 130).ss ∧ (DMSBasic.new32 5 2 130).ss < 60) ∧
    (carrySec32 2 (130 : ℚ)).1 = 2 + (qtrunc ((130 : ℚ) / 60)).toNat ∧
    ((DMSBasic.new32 5 2 130).mm = (carrySec32 2 (130 : ℚ)).1 ∧
      (DMSBasic.new32 5 2 130).dd = 5) ∧
    ((DMSBasic.new32 0 0 7200).mm = (carrySec32 0 (7200 : ℚ)).1 % 60 ∧
      (DMSBasic.new32 0 0 7200).dd
        = wrapI32 (0 + (((carrySec32 0 (7200 : ℚ)).1 / 60 : ℕ) : ℤ))) ∧
    (DMSBasic.new32 1 2 60).ss = 60 := by
  have hq1 : qtrunc ((130 : ℚ) / 60) = 2 := by norm_num [qtrunc]
  have hq2 : qtrunc ((7200 : ℚ) / 60) = 120 := by norm_num [qtrunc]
  have e1 : (carrySec32 2 (130 : ℚ)).1 = 4 := by
    rw [carrySec32_fits 2 130 (by norm_num) (by rw [hq1]; decide), hq1]
    rfl
  have e2 : (carrySec32 0 (7200 : ℚ)).1 = 120 := by
    rw [carrySec32_fits 0 7200 (by norm_num) (by rw [hq2]; decide), hq2]
    rfl
  have h1 := (c1_carry_seconds_amended 5 2 130).1 (by norm_num)
  have h2 := (c1_carry_seconds_amended 0 0 7200).1 (by norm_num)
  exact ⟨⟨h1.1, h1.2.1⟩,
    h1.2.2.1 (by rw [hq1]; decide),
    h1.2.2.2.1 (by rw [e1]; norm_num),
    h2.2.2.2.2 (by rw [e2]; norm_num),
    (c1_carry_seconds_amended 1 2 60).2 rfl⟩

/-- C3 fails as stated: at input `(0, 59, 61)` the seconds carry lifts
the minutes to exactly 60, which the strict minutes guard leaves in
place, so the result violates `mm < 60`. -/
theorem c3_counterexample :
    (DMSBasic.new 0 59 61).mm = 60 ∧ ¬ (DMSBasic.new 0 59 61).mm < 60 := by
  have h : (DMSBasic.new 0 59 61).mm = 60 := by
    rw [new_mm_eq, carrySec_pos _ _ (by norm_num)]
    rw [show (qtrunc ((61 : ℚ) / 60)).toNat = 1 by norm_num [qtrunc]]
    rw [carryMin_neg _ _ (by omega)]
  exact ⟨h, by omega⟩

/-- C3 (amended): whenever the input places excess weight in a lower
field (`ss > 60` or `mm > 60`), the constructed triple has
`0 ≤ mm ≤ 60` (exactly 60 is reachable); the seconds end in `[0, 60)`
when `ss > 60`, and otherwise pass through unchanged (so they may be
exactly 60 or negative). -/
theorem c3_lower_fields_amended (dd : ℤ) (mm : ℕ) (ss : ℚ)
    (h : ss > 60 ∨ mm > 60) :
    (DMSBasic.new dd mm ss).mm ≤ 60 ∧
    (ss > 60 → 0 ≤ (DMSBasic.new dd mm ss).ss ∧ (DMSBasic.new dd mm ss).ss < 60) ∧
    (ss ≤ 60 → (DMSBasic.new dd mm ss).ss = ss) := by
  refine ⟨new_mm_le dd mm ss, ?_, ?_⟩
  · intro hss
    have hb := fRem_bounds ss (by linarith)
    have he : (DMSBasic.new dd mm ss).ss = fRem ss 60 := by
      rw [new_ss_eq, carrySec_pos _ _ hss]
    exact ⟨he ▸ hb.1, he ▸ hb.2⟩
  · intro hle
    rw [new_ss_eq, carrySec_neg _ _ (not_lt.mpr hle)]

theorem c3_lower_fields_amended_witness :
    ((DMSBasic.new 3 61 10).mm ≤ 60 ∧ (DMSBasic.new 3 61 10).ss = 10) ∧
    (0 ≤ (DMSBasic.new 0 0 61).ss ∧ (DMSBasic.new 0 0 61).ss < 60) :=
  ⟨⟨(c3_lower_fields_amended 3 61 10 (Or.inr (by norm_num))).1,
    (c3_lower_fields_amended 3 61 10 (Or.inr (by norm_num))).2.2 (by norm_num)⟩,
   (c3_lower_fields_amended 0 0 61 (Or.inl (by norm_num))).2.1 (by norm_num)⟩

theorem latReduce_out (t : DMSBasic) (h : t.dd < -90 ∨ t.dd > 90) :
    latReduce t = ⟨Int.tmod t.dd 90, t.mm, t.ss⟩ := if_pos h

theorem latReduce_in (t : DMSBasic) (h : ¬ (t.dd < -90 ∨ t.dd > 90)) :
    latReduce t = t := if_neg h

theorem lonReduce_out (t : DMSBasic) (h : t.dd < -180 ∨ t.dd > 180) :
    lonReduce t = ⟨Int.tmod t.dd 180, t.mm, t.ss⟩ := if_pos h

theorem lonReduce_in (t : DMSBasic) (h : ¬ (t.dd < -180 ∨ t.dd > 180)) :
    lonReduce t = t := if_neg h

theorem latReduce_mm_ss (t : DMSBasic) : (latReduce t).mm = t.mm ∧ (latReduce t).ss = t.ss := by
  by_cases h : t.dd < -90 ∨ t.dd > 90
  · rw [latReduce_out t h]
    exact ⟨rfl, rfl⟩
  · rw [latReduce_in t h]
    exact ⟨rfl, rfl⟩

theorem lonReduce_mm_ss (t : DMSBasic) : (lonReduce t).mm = t.mm ∧ (lonReduce t).ss = t.ss := by
  by_cases h : t.dd < -180 ∨ t.dd > 180
  · rw [lonReduce_out t h]
    exact ⟨rfl, rfl⟩
  · rw [lonReduce_in t h]
    exact ⟨rfl, rfl⟩

theorem tmod_nonpos (a b : ℤ) (ha : a ≤ 0) : Int.tmod a b ≤ 0 := by
  have h1 : Int.tmod a b = -(Int.tmod (-a) b) := by
    rw [neg_tmod_dividend, neg_neg]
  rw [h1]
  have := Int.tmod_nonneg b (by omega : (0 : ℤ) ≤ -a)
  omega

/-- C4: `DMS::new` reduces the degree field with the sign-preserving
remainder (`i32 %`, i.e. `Int.tmod`) exactly when it lies strictly
outside `[-90, 90]` (latitude) resp. `[-180, 180]` (longitude);
boundary values pass through unchanged, minutes and seconds are always
preserved, and the reduced degree keeps the sign of the input. -/
theorem c4_range_reduction (lat lon : DMSBasic) :
    ((DMS.new lat lon).lat.mm = lat.mm ∧ (DMS.new lat lon).lat.ss = lat.ss ∧
     (DMS.new lat lon).lon.mm = lon.mm ∧ (DMS.new lat lon).lon.ss = lon.ss) ∧
    (lat.dd < -90 ∨ lat.dd > 90 → (DMS.new lat lon).lat.dd = Int.tmod lat.dd 90) ∧
    (-90 ≤ lat.dd → lat.dd ≤ 90 → (DMS.new lat lon).lat.dd = lat.dd) ∧
    (lon.dd < -180 ∨ lon.dd > 180 → (DMS.new lat lon).lon.dd = Int.tmod lon.dd 180) ∧
    (-180 ≤ lon.dd → lon.dd ≤ 180 → (DMS.new lat lon).lon.dd = lon.dd) ∧
    (0 ≤ lat.dd → 0 ≤ (DMS.new lat lon).lat.dd) ∧
    (lat.dd ≤ 0 → (DMS.new lat lon).lat.dd ≤ 0) ∧
    (0 ≤ lon.dd → 0 ≤ (DMS.new lat lon).lon.dd) ∧
    (lon.dd ≤ 0 → (DMS.new lat lon).lon.dd ≤ 0) := by
  have hlat : (DMS.new lat lon).lat = latReduce lat := rfl
  have hlon : (DMS.new lat lon).lon = lonReduce lon := rfl
  refine ⟨⟨?_, ?_, ?_, ?_⟩, ?_, ?_, ?_, ?_, ?_, ?_, ?_, ?_⟩
  · rw [hlat]
    exact (latReduce_mm_ss lat).1
  · rw [hlat]
    exact (latReduce_mm_ss lat).2
  · rw [hlon]
    exact (lonReduce_mm_ss lon).1
  · rw [hlon]
    exact (lonReduce_mm_ss lon).2
  · intro h
    rw [hlat, latReduce_out lat h]
  · intro h1 h2
    rw [hlat, latReduce_in lat (by omega)]
  · intro h
    rw [hlon, lonReduce_out lon h]
  · intro h1 h2
    rw [hlon, lonReduce_in lon (by omega)]
  · intro h
    rw [hlat]
    by_cases hc : lat.dd < -90 ∨ lat.dd > 90
    · rw [latReduce_out lat hc]
      exact Int.tmod_nonneg 90 h
    · rw [latReduce_in lat hc]
      exact h
  · intro h
    rw [hlat]
    by_cases hc : lat.dd < -90 ∨ lat.dd > 90
    · rw [latReduce_out lat hc]
      exact tmod_nonpos _ 90 h
    · rw [latReduce_in lat hc]
      exact h
  · intro h
    rw [hlon]
    by_cases hc : lon.dd < -180 ∨ lon.dd > 180
    · rw [lonReduce_out lon hc]
      exact Int.tmod_nonneg 180 h
    · rw [lonReduce_in lon hc]
      exact h
  · intro h
    rw [hlon]
    by_cases hc : lon.dd < -180 ∨ lon.dd > 180
    · rw [lonReduce_out lon hc]
      exact tmod_nonpos _ 180 h
    · rw [lonReduce_in lon hc]
      exact h

theorem c4_range_reduction_witness :
    ((DMS.new ⟨100, 1, 2⟩ ⟨-200, 3, 4⟩).lat.dd = Int.tmod 100 90 ∧
     (DMS.new ⟨100, 1, 2⟩ ⟨-200, 3, 4⟩).lon.dd = Int.tmod (-200) 180) ∧
    ((DMS.new ⟨90, 1, 2⟩ ⟨-180, 3, 4⟩).lat.dd = 90 ∧
     (DMS.new ⟨90, 1, 2⟩ ⟨-180, 3, 4⟩).lon.dd = -180) ∧
    ((DMS.new ⟨100, 1, 2⟩ ⟨-200, 3, 4⟩).lat.mm = 1 ∧
     (DMS.new ⟨100, 1, 2⟩ ⟨-200, 3, 4⟩).lon.ss = 4) :=
  ⟨⟨(c4_range_reduction ⟨100, 1, 2⟩ ⟨-200, 3, 4⟩).2.1 (Or.inr (by norm_num)),
    (c4_range_reduction ⟨100, 1, 2⟩ ⟨-200, 3, 4⟩).2.2.2.1 (Or.inl (by norm_num))⟩,
   ⟨(c4_range_reduction ⟨90, 1, 2⟩ ⟨-180, 3, 4⟩).2.2.1 (by norm_num) (by norm_num),
    (c4_range_reduction ⟨90, 1, 2⟩ ⟨-180, 3, 4⟩).2.2.2.2.1 (by norm_num) (by norm_num)⟩,
   ⟨(c4_range_reduction ⟨100, 1, 2⟩ ⟨-200, 3, 4⟩).1.1,
    (c4_range_reduction ⟨100, 1, 2⟩ ⟨-200, 3, 4⟩).1.2.2.2⟩⟩

theorem new00_of_nonpos (ss : ℚ) (h : ss ≤ 60) :
    DMSBasic.new 0 0 ss = ⟨0, 0, ss⟩ := by
  rw [DMSBasic.new]
  rw [carrySec_neg _ _ (not_lt.mpr h)]
  rw [carryMin_neg _ _ (by omega)]

/-- C5 fails as stated: for the strictly negative latitude `-1` the
conversion yields degree field `0` (not negative) and a negative
seconds field `-3600`. -/
theorem c5_counterexample :
    (DMS.ofCoord ⟨-1, 0⟩).lat.dd = 0 ∧
    ¬ (DMS.ofCoord ⟨-1, 0⟩).lat.dd < 0 ∧
    (DMS.ofCoord ⟨-1, 0⟩).lat.ss = -3600 := by
  have h1 : DMSBasic.new 0 0 ((-1 : ℚ) * 3600) = ⟨0, 0, -3600⟩ := by
    rw [show ((-1 : ℚ) * 3600) = -3600 by norm_num]
    exact new00_of_nonpos _ (by norm_num)
  have h2 : (DMS.ofCoord ⟨-1, 0⟩).lat = latReduce ⟨0, 0, -3600⟩ := by
    rw [DMS.ofCoord]
    rw [DMS.new]
    rw [h1]
  have h3 : latReduce (⟨0, 0, -3600⟩ : DMSBasic) = ⟨0, 0, -3600⟩ :=
    latReduce_in _ (by norm_num)
  rw [h2, h3]
  refine ⟨rfl, by norm_num, rfl⟩

/-- C5 (amended): for a strictly negative decimal latitude (resp.
longitude), `From<Coord>` leaves both the degree and minute fields at 0
and carries the whole signed value in the seconds field
(`ss = lat * 3600 < 0`): the sign lives in `ss`, not in `dd`. -/
theorem c5_negative_sign_amended (c : Coord) :
    (c.lat < 0 →
      (DMS.ofCoord c).lat.dd = 0 ∧ (DMS.ofCoord c).lat.mm = 0 ∧
      (DMS.ofCoord c).lat.ss = c.lat * 3600) ∧
    (c.lon < 0 →
      (DMS.ofCoord c).lon.dd = 0 ∧ (DMS.ofCoord c).lon.mm = 0 ∧
      (DMS.ofCoord c).lon.ss = c.lon * 3600) := by
  constructor
  · intro h
    have h1 : DMSBasic.new 0 0 (c.lat * 3600) = ⟨0, 0, c.lat * 3600⟩ :=
      new00_of_nonpos _ (by nlinarith)
    have h2 : (DMS.ofCoord c).lat = latReduce ⟨0, 0, c.lat * 3600⟩ := by
      rw [DMS.ofCoord, DMS.new, h1]
    rw [h2, latReduce_in _ (by norm_num)]
    exact ⟨rfl, rfl, rfl⟩
  · intro h
    have h1 : DMSBasic.new 0 0 (c.lon * 3600) = ⟨0, 0, c.lon * 3600⟩ :=
      new00_of_nonpos _ (by nlinarith)
    have h2 : (DMS.ofCoord c).lon = lonReduce ⟨0, 0, c.lon * 3600⟩ := by
      rw [DMS.ofCoord, DMS.new, h1]
    rw [h2, lonReduce_in _ (by norm_num)]
    exact ⟨rfl, rfl, rfl⟩

theorem c5_negative_sign_amended_witness :
    ((DMS.ofCoord ⟨-2, -3⟩).lat.dd = 0 ∧ (DMS.ofCoord ⟨-2, -3⟩).lat.mm = 0 ∧
      (DMS.ofCoord ⟨-2, -3⟩).lat.ss = (-2) * 3600) ∧
    ((DMS.ofCoord ⟨-2, -3⟩).lon.dd = 0 ∧ (DMS.ofCoord ⟨-2, -3⟩).lon.mm = 0 ∧
      (DMS.ofCoord ⟨-2, -3⟩).lon.ss = (-3) * 3600) :=
  ⟨(c5_negative_sign_amended ⟨-2, -3⟩).1 (by norm_num),
   (c5_negative_sign_amended ⟨-2, -3⟩).2 (by norm_num)⟩

theorem new00_dd_nonneg (ss : ℚ) : 0 ≤ (DMSBasic.new 0 0 ss).dd := by
  rw [new_dd_eq]
  by_cases h : (carrySec 0 ss).1 > 60
  · rw [carryMin_pos _ _ h]
    have : (0 : ℤ) ≤ (((carrySec 0 ss).1 / 60 : ℕ) : ℤ) := Int.ofNat_nonneg _
    omega
  · rw [carryMin_neg _ _ h]

theorem new00_dd_le (ss : ℚ) (B : ℕ) (h : ss ≤ 3600 * B) :
    (DMSBasic.new 0 0 ss).dd ≤ B := by
  rw [new_dd_eq]
  have hmm : (carrySec 0 ss).1 ≤ 60 * B := by
    by_cases hs : ss > 60
    · rw [carrySec_pos _ _ hs]
      have h0 : (0 : ℚ) ≤ ss / 60 := div_nonneg (by linarith) (by norm_num)
      have h1 : ss / 60 ≤ ((60 * B : ℕ) : ℚ) := by
        push_cast
        linarith
      have h2 : ⌊ss / 60⌋ ≤ ((60 * B : ℕ) : ℤ) := by
        have := Int.floor_mono h1
        rwa [Int.floor_natCast] at this
      have h3 : (⌊ss / 60⌋).toNat ≤ 60 * B := Int.toNat_le.mpr h2
      rw [qtrunc_eq_floor _ h0]
      omega
    · rw [carrySec_neg _ _ hs]
      exact Nat.zero_le _
  by_cases h2 : (carrySec 0 ss).1 > 60
  · rw [carryMin_pos _ _ h2]
    have h4 : (carrySec 0 ss).1 / 60 ≤ B := by omega
    have h5 : (((carrySec 0 ss).1 / 60 : ℕ) : ℤ) ≤ (B : ℤ) := by exact_mod_cast h4
    omega
  · rw [carryMin_neg _ _ h2]
    exact Int.ofNat_nonneg B

theorem toDegrees_new00 (ss : ℚ) : (DMSBasic.new 0 0 ss).toDegrees = ss / 3600 := by
  have hdd := new00_dd_nonneg ss
  have hv := new_value 0 0 ss
  rw [DMSBasic.toDegrees, if_neg (not_lt.mpr hdd)]
  push_cast at hv
  field_simp
  linarith

/-- C6: for a `Coord` with `|lat| ≤ 90` and `|lon| ≤ 180`, converting
to `DMSPair` and back to decimal degrees changes each component by at
most 0.01 seconds of arc (`1/360000` of a degree); in the exact
rational model the round trip is in fact error-free. -/
theorem c6_roundtrip_precision (c : Coord) (hlat : |c.lat| ≤ 90) (hlon : |c.lon| ≤ 180) :
    |(Coord.ofDMS (DMS.ofCoord c)).lat - c.lat| ≤ 1 / 360000 ∧
    |(Coord.ofDMS (DMS.ofCoord c)).lon - c.lon| ≤ 1 / 360000 := by
  obtain ⟨hl1, hl2⟩ := abs_le.mp hlat
  obtain ⟨hn1, hn2⟩ := abs_le.mp hlon
  have hlatd1 := new00_dd_nonneg (c.lat * 3600)
  have hlatd2 := new00_dd_le (c.lat * 3600) 90 (by push_cast; linarith)
  have hlond1 := new00_dd_nonneg (c.lon * 3600)
  have hlond2 := new00_dd_le (c.lon * 3600) 180 (by push_cast; linarith)
  have hA : (Coord.ofDMS (DMS.ofCoord c)).lat
      = DMSBasic.toDegrees (latReduce (DMSBasic.new 0 0 (c.lat * 3600))) := rfl
  have hB : (Coord.ofDMS (DMS.ofCoord c)).lon
      = DMSBasic.toDegrees (lonReduce (DMSBasic.new 0 0 (c.lon * 3600))) := rfl
  have hA2 : latReduce (DMSBasic.new 0 0 (c.lat * 3600)) = DMSBasic.new 0 0 (c.lat * 3600) := by
    apply latReduce_in
    push_neg
    constructor
    · omega
    · omega
  have hB2 : lonReduce (DMSBasic.new 0 0 (c.lon * 3600)) = DMSBasic.new 0 0 (c.lon * 3600) := by
    apply lonReduce_in
    push_neg
    constructor
    · omega
    · omega
  rw [hA, hA2, toDegrees_new00]
  rw [hB, hB2, toDegrees_new00]
  have e1 : c.lat * 3600 / 3600 - c.lat = 0 := by
    field_simp
  have e2 : c.lon * 3600 / 3600 - c.lon = 0 := by
    field_simp
  rw [e1, e2, abs_zero]
  norm_num

theorem c6_roundtrip_precision_witness :
    |(Coord.ofDMS (DMS.ofCoord ⟨1/2, -1/2⟩)).lat - 1/2| ≤ 1 / 360000 ∧
    |(Coord.ofDMS (DMS.ofCoord ⟨1/2, -1/2⟩)).lon - (-1/2)| ≤ 1 / 360000 :=
  c6_roundtrip_precision ⟨1/2, -1/2⟩
    (abs_le.mpr ⟨by norm_num, by norm_num⟩)
    (abs_le.mpr ⟨by norm_num, by norm_num⟩)

theorem i32abs_eq_natAbs (z : ℤ) (h1 : -2147483648 < z) (h2 : z < 2147483648) :
    i32abs z = (z.natAbs : ℤ) := by
  rw [i32abs]
  by_cases hz : z < 0
  · rw [if_pos hz, wrapI32_eq_self _ (by omega) (by omega)]
    omega
  · rw [if_neg hz, wrapI32_eq_self _ (by omega) (by omega)]
    omega

/-- C7 fails as stated: at degree field `i32::MIN` the call
`self.dd.abs()` overflows, so a release build renders the degree as
`-2147483648` rather than the absolute value `2147483648` (a debug
build panics). -/
theorem c7_counterexample :
    DMSBasic.render ⟨-2147483648, 0, 0⟩
      = toString (i32abs (-2147483648)) ++ "°" ++ toString (0 : ℕ) ++ "\x27"
          ++ toString (0 : ℚ) ++ "\x22" ∧
    i32abs (-2147483648) = -2147483648 ∧
    (((-2147483648 : ℤ).natAbs : ℤ)) = 2147483648 ∧
    i32abs (-2147483648) ≠ (((-2147483648 : ℤ).natAbs : ℤ)) := by
  have habs : i32abs (-2147483648) = -2147483648 := by
    norm_num [i32abs, wrapI32]
  have hnat : (((-2147483648 : ℤ).natAbs : ℤ)) = 2147483648 := by
    norm_num
  exact ⟨rfl, habs, hnat, by omega⟩

/-- C7 (amended): rendering a `DMS` yields the latitude triple, its
hemisphere letter (`N` for `dd ≥ 0`, including exactly zero, else
`S`), a comma-space, then the longitude triple with `E` (`dd ≥ 0`) or
`W`; and the degree value each triple renders is the absolute value of
its degree field whenever that field is not `i32::MIN` — at `i32::MIN`
the wrapping `abs` yields `i32::MIN` itself (a debug build panics). -/
theorem c7_render_amended (d : DMS) :
    (DMS.render d =
      d.lat.render ++ (if d.lat.dd ≥ 0 then "N" else "S") ++ ", " ++
      d.lon.render ++ (if d.lon.dd ≥ 0 then "E" else "W")) ∧
    (-2147483648 < d.lat.dd → d.lat.dd < 2147483648 →
      d.lat.render
        = toString d.lat.dd.natAbs ++ "°" ++ toString d.lat.mm ++ "\x27"
            ++ toString d.lat.ss ++ "\x22") ∧
    (-2147483648 < d.lon.dd → d.lon.dd < 2147483648 →
      d.lon.render
        = toString d.lon.dd.natAbs ++ "°" ++ toString d.lon.mm ++ "\x27"
            ++ toString d.lon.ss ++ "\x22") := by
  refine ⟨?_, ?_, ?_⟩
  · rw [DMS.render]
    by_cases h1 : d.lat.dd ≥ 0 <;> by_cases h2 : d.lon.dd ≥ 0 <;>
      simp only [h1, h2, ite_true, ite_false, String.append_assoc]
    all_goals congr 1
  · intro hlo hhi
    rw [DMSBasic.render, i32abs_eq_natAbs _ hlo hhi]
    rfl
  · intro hlo hhi
    rw [DMSBasic.render, i32abs_eq_natAbs _ hlo hhi]
    rfl

theorem c7_render_amended_witness :
    (DMS.render ⟨⟨5, 1, 2⟩, ⟨-7, 3, 4⟩⟩ =
      DMSBasic.render ⟨5, 1, 2⟩ ++ (if (5 : ℤ) ≥ 0 then "N" else "S") ++ ", " ++
      DMSBasic.render ⟨-7, 3, 4⟩ ++ (if (-7 : ℤ) ≥ 0 then "E" else "W")) ∧
    DMSBasic.render ⟨-7, 3, 4⟩
      = toString ((-7 : ℤ).natAbs) ++ "°" ++ toString (3 : ℕ) ++ "\x27"
          ++ toString (4 : ℚ) ++ "\x22" :=
  ⟨(c7_render_amended ⟨⟨5, 1, 2⟩, ⟨-7, 3, 4⟩⟩).1,
   (c7_render_amended ⟨⟨5, 1, 2⟩, ⟨-7, 3, 4⟩⟩).2.2 (by norm_num) (by norm_num)⟩

/-- C8: the conversions from `Utm` and from `Mgrs` into `DMS` are by
construction the composition through `Coord`: the code converts the
source to a `Coord` and then applies `From<Coord>`. -/
theorem c8_transitive (u : Utm) (m : Mgrs) :
    DMS.ofUtm u = DMS.ofCoord (Coord.ofUtm u) ∧
    DMS.ofMgrs m = DMS.ofCoord (Coord.ofMgrs m) :=
  ⟨rfl, rfl⟩

/-- C9 fails as stated: at `dd = i32::MAX` with `mm = 120` the minutes
carry `dd += mm / 60` overflows the `i32` degree field, wrapping to
`-2147483647` (a debug build panics here) instead of producing
`2147483649`. -/
theorem c9_counterexample :
    (DMSBasic.new32 2147483647 120 0).dd = -2147483647 ∧
    (DMSBasic.new32 2147483647 120 0).dd ≠ 2147483647 + ((120 / 60 : ℕ) : ℤ) := by
  have h1 : carrySec32 120 (0 : ℚ) = (120, 0) := if_neg (by norm_num)
  have h2 : (DMSBasic.new32 2147483647 120 0).dd
      = (carryMin32 2147483647 (carrySec32 120 0).1).1 := rfl
  have h3 : carryMin32 2147483647 120
      = (wrapI32 (2147483647 + ((120 / 60 : ℕ) : ℤ)), 120 % 60) := if_pos (by omega)
  have h4 : wrapI32 (2147483647 + ((120 / 60 : ℕ) : ℤ)) = -2147483647 := by
    norm_num [wrapI32]
  have h5 : (DMSBasic.new32 2147483647 120 0).dd = -2147483647 := by
    rw [h2, h1, h3]
    exact h4
  refine ⟨h5, ?_⟩
  rw [h5]
  norm_num

/-- C9 (amended): construction always returns a value and reports no
error, but the carry arithmetic runs in `u32`/`i32`: whenever the
carried minutes fit in `u32` and the carried degrees fit in `i32`, the
machine-width construction agrees exactly with the ideal carry — while
inputs exceeding those widths wrap (or panic under debug assertions),
as the counterexample shows. -/
theorem c9_totality_amended (dd : ℤ) (mm : ℕ) (ss : ℚ)
    (hcarry : ss > 60 → mm + (qtrunc (ss / 60)).toNat ≤ 4294967295)
    (hdd : (carrySec mm ss).1 > 60 →
      -2147483648 ≤ dd + (((carrySec mm ss).1 / 60 : ℕ) : ℤ) ∧
      dd + (((carrySec mm ss).1 / 60 : ℕ) : ℤ) < 2147483648) :
    DMSBasic.new32 dd mm ss = DMSBasic.new dd mm ss := by
  have hsec : carrySec32 mm ss = carrySec mm ss := by
    by_cases hs : ss > 60
    · have h0 : (0 : ℚ) ≤ ss / 60 := div_nonneg (by linarith) (by norm_num)
      have hle := hcarry hs
      have hcast : castU32 (ss / 60) = (qtrunc (ss / 60)).toNat := by
        rw [castU32, if_neg (not_lt.mpr h0)]
        exact min_eq_left (by omega)
      rw [carrySec_pos _ _ hs, carrySec32, if_pos hs, hcast,
        Nat.mod_eq_of_lt (by omega)]
    · rw [carrySec_neg _ _ hs, carrySec32, if_neg hs]
  have hmin : carryMin32 dd (carrySec mm ss).1 = carryMin dd (carrySec mm ss).1 := by
    by_cases hm : (carrySec mm ss).1 > 60
    · rw [carryMin_pos _ _ hm, carryMin32, if_pos hm,
        wrapI32_eq_self _ (hdd hm).1 (hdd hm).2]
    · rw [carryMin_neg _ _ hm, carryMin32, if_neg hm]
  show (⟨(carryMin32 dd (carrySec32 mm ss).1).1, (carryMin32 dd (carrySec32 mm ss).1).2,
      (carrySec32 mm ss).2⟩ : DMSBasic) = DMSBasic.new dd mm ss
  rw [hsec, hmin]
  rfl

theorem c9_totality_amended_witness :
    DMSBasic.new32 0 0 7200 = DMSBasic.new 0 0 7200 := by
  have hq : qtrunc ((7200 : ℚ) / 60) = 120 := by norm_num [qtrunc]
  refine c9_totality_amended 0 0 7200 ?_ ?_
  · intro h
    rw [hq]
    decide
  · have e : (carrySec 0 (7200 : ℚ)).1 = 120 := by
      rw [carrySec_pos _ _ (by norm_num), hq]
      rfl
    intro h
    rw [e]
    constructor
    · decide
    · decide
